import Mathlib

/-!
Shallow embedding of the contract-annotator core (`analyzer.py` and the
compliance-check portion of `main.py`).  Python strings are modelled as
`List Char`; the Python functions are translated line by line into
executable Lean definitions, and the spec's claims are settled as theorems
about those definitions.

Modelling conventions:
* `str.strip()` / `rstrip()` / `lstrip()` use the Python whitespace set
  (`str.isspace`), restricted to the code points listed below.
* `str.splitlines()` uses Python's line-boundary set, with `\r\n` counting
  as a single boundary and no trailing empty line for a final terminator.
* `str.lower()` and the regex flag `(?i)` are modelled on the ASCII
  fragment (the only characters occurring in the program's patterns,
  keywords and messages).
* Python's `in` operator on strings is contiguous-substring containment,
  modelled by the executable `pyIn` (specified by the predicate
  `occursIn`).
-/

/-- Python `str.isspace()` set (ASCII/Latin-1 part plus the Unicode space
code points), which is also the character class of the regex `\s` for
`str` patterns. -/
def isPySpace (c : Char) : Bool :=
  c = ' ' || (Char.ofNat 9 ≤ c && c ≤ Char.ofNat 13) ||
  (Char.ofNat 28 ≤ c && c ≤ Char.ofNat 31) ||
  c = Char.ofNat 0x85 || c = Char.ofNat 0xA0 || c = Char.ofNat 0x1680 ||
  (Char.ofNat 0x2000 ≤ c && c ≤ Char.ofNat 0x200A) ||
  c = Char.ofNat 0x2028 || c = Char.ofNat 0x2029 ||
  c = Char.ofNat 0x202F || c = Char.ofNat 0x205F || c = Char.ofNat 0x3000

/-- The regex `\d` class, on the Basic Latin digits used by the program. -/
def isPyDigit (c : Char) : Bool :=
  '0' ≤ c && c ≤ '9'

/-- Line boundaries recognized by Python `str.splitlines()`
(`\r\n` is treated as one boundary by the splitter below). -/
def isLineBreak (c : Char) : Bool :=
  c = Char.ofNat 10 || c = Char.ofNat 13 || c = Char.ofNat 11 ||
  c = Char.ofNat 12 || c = Char.ofNat 28 || c = Char.ofNat 29 ||
  c = Char.ofNat 30 || c = Char.ofNat 0x85 ||
  c = Char.ofNat 0x2028 || c = Char.ofNat 0x2029

/-- `str.lower()` on the ASCII fragment. -/
def pyLowerChar (c : Char) : Char :=
  if 'A' ≤ c && c ≤ 'Z' then Char.ofNat (c.toNat + 32) else c

/-- `str.lower()` applied to a whole string. -/
def pyLowerStr (s : List Char) : List Char :=
  s.map pyLowerChar

/-- Python `str.lstrip()` (no argument: strips whitespace). -/
def pyLstrip (s : List Char) : List Char :=
  s.dropWhile isPySpace

/-- Python `str.rstrip()` (no argument: strips whitespace). -/
def pyRstrip (s : List Char) : List Char :=
  (s.reverse.dropWhile isPySpace).reverse

/-- Python `str.strip()` (no argument: strips whitespace at both ends). -/
def pyStrip (s : List Char) : List Char :=
  pyRstrip (pyLstrip s)

/-- Worker for `pySplitlines`: accumulates the current line (reversed)
and splits at every line boundary, treating `\r\n` as one boundary. -/
def pySLgo : List Char → List Char → List (List Char)
  | acc, [] => [acc.reverse]
  | acc, [c] =>
    if isLineBreak c then [acc.reverse] else [(c :: acc).reverse]
  | acc, c :: d :: rest =>
    if c = Char.ofNat 13 && d = Char.ofNat 10 then
      acc.reverse :: (if rest.isEmpty then [] else pySLgo [] rest)
    else if isLineBreak c then
      acc.reverse :: pySLgo [] (d :: rest)
    else
      pySLgo (c :: acc) (d :: rest)

/-- Python `str.splitlines()`: the empty string yields no lines, and a
trailing terminator does not produce a trailing empty line. -/
def pySplitlines (s : List Char) : List (List Char) :=
  match s with
  | [] => []
  | _ :: _ => pySLgo [] s

/-- `"\n".join(xs)`. -/
def joinNL : List (List Char) → List Char
  | [] => []
  | [x] => x
  | x :: y :: rest => x ++ Char.ofNat 10 :: joinNL (y :: rest)

/-- `" ".join(xs)`. -/
def joinSpace : List (List Char) → List Char
  | [] => []
  | [x] => x
  | x :: y :: rest => x ++ ' ' :: joinSpace (y :: rest)

/-- The character class of `HEADING_RE = ^[A-Z0-9 \-&(),]{3,}$`. -/
def isHeadChar (c : Char) : Bool :=
  ('A' ≤ c && c ≤ 'Z') || ('0' ≤ c && c ≤ '9') ||
  c = ' ' || c = '-' || c = '&' || c = '(' || c = ')' || c = ','

/-- `HEADING_RE.match(s)` viewed as a boolean: the anchored pattern
`^[A-Z0-9 \-&(),]{3,}$` matches `s` iff `s` consists of at least three
class characters, or does so after removing one final newline (Python's
`$` without `MULTILINE` also matches just before a trailing newline). -/
def heading_re_match (s : List Char) : Bool :=
  (3 ≤ s.length && s.all isHeadChar) ||
  (s.getLast? = some (Char.ofNat 10) &&
    (3 ≤ s.dropLast.length && s.dropLast.all isHeadChar))

/-- The literal `"Preamble"`. -/
def preambleStr : List Char := ("Preamble").data

/-- Loop body of `split_into_sections`: walks the (already `rstrip`ped)
lines with the current heading `hd`, the accumulated body lines `cur`,
and the sections emitted so far `acc`; flushes the final pair
unconditionally at the end. -/
def splitGo (hd : List Char) (cur : List (List Char))
    (acc : List (List Char × List Char)) :
    List (List Char) → List (List Char × List Char)
  | [] => acc ++ [(pyStrip hd, pyStrip (joinNL cur))]
  | ln :: rest =>
    if pyStrip ln = [] then
      splitGo hd (cur ++ [[]]) acc rest
    else if heading_re_match (pyStrip ln) then
      splitGo (pyStrip ln) []
        (if cur = [] ∧ acc = [] then acc
         else acc ++ [(pyStrip hd, pyStrip (joinNL cur))]) rest
    else
      splitGo hd (cur ++ [ln]) acc rest

/-- `analyzer.split_into_sections`. -/
def split_into_sections (text : List Char) : List (List Char × List Char) :=
  splitGo preambleStr [] [] ((pySplitlines text).map pyRstrip)

/-- The per-section lines emitted by `sections_to_text` before joining:
the heading when it is non-empty and not `"Preamble"`, the content when
non-empty, and an unconditional blank separator line. -/
def outList : List (List Char × List Char) → List (List Char)
  | [] => []
  | (h, c) :: rest =>
    ((if h ≠ [] ∧ h ≠ preambleStr then [h] else []) ++
     (if c ≠ [] then [c] else []) ++ [[]]) ++ outList rest

/-- `analyzer.sections_to_text`. -/
def sections_to_text (sections : List (List Char × List Char)) : List Char :=
  pyStrip (joinNL (outList sections))

/-- Case-insensitive character comparison (the effect of the `(?i)` flag
on the program's ASCII pattern literals). -/
def ciEq (a b : Char) : Bool :=
  pyLowerChar a = pyLowerChar b

/-- Consume a literal pattern word case-insensitively from the front of
the text, returning the remainder on success. -/
def stripWordCI : List Char → List Char → Option (List Char)
  | [], t => some t
  | _ :: _, [] => none
  | p :: ps, c :: cs => if ciEq p c then stripWordCI ps cs else none

/-- Match a sequence of literal words separated by `\s+` (at least one
whitespace character between consecutive words).  The whitespace classes
and the word letters are disjoint, so greedy consumption is complete. -/
def matchWords : List (List Char) → List Char → Bool
  | [], _ => true
  | [w], t => (stripWordCI w t).isSome
  | w :: w2 :: ws, t =>
    match stripWordCI w t with
    | none => false
    | some r =>
      match r with
      | [] => false
      | c :: cs => isPySpace c && matchWords (w2 :: ws) (cs.dropWhile isPySpace)

/-- One anchor pattern of `inject_clause_smartly`: every pattern in the
source has the shape `(?i)^\s*WORDS` or `(?i)^\s*\d*\.?\s*WORDS` with
`WORDS` literal words separated by `\s+`.  (`SIGNATURES?` ends in an
optional `S`, which can affect neither whether a match exists nor where
it starts, so it is modelled by the mandatory stem `SIGNATURE`.) -/
structure Anchor where
  numPrefix : Bool
  words : List (List Char)
deriving DecidableEq

/-- Consume `\d*\.?\s*` greedily (digit class, dot and whitespace class
are pairwise disjoint and disjoint from the following word letters, so
the greedy scan is equivalent to the backtracking regex). -/
def dropNumPrefix (t : List Char) : List Char :=
  let u := t.dropWhile isPyDigit
  let u2 := match u with
    | '.' :: r => r
    | _ => u
  u2.dropWhile isPySpace

/-- Does the anchor's pattern (minus the leading `^`) match starting
exactly at the beginning of `t`?  The leading `\s*` is consumed greedily,
which is complete because whitespace is disjoint from digits, the dot and
the word letters. -/
def matchAnchorCore (a : Anchor) (t : List Char) : Bool :=
  let t1 := t.dropWhile isPySpace
  let t2 := if a.numPrefix then dropNumPrefix t1 else t1
  matchWords a.words t2

/-- Does the anchor match `s` with the match starting at offset `p`?
With `re.MULTILINE`, `^` matches at offset 0 and immediately after every
`\n`. -/
def matchesAt (a : Anchor) (s : List Char) (p : Nat) : Bool :=
  (p == 0 || s.get? (p - 1) == some (Char.ofNat 10)) &&
  matchAnchorCore a (s.drop p)

/-- `re.search(pattern, s, re.MULTILINE).start()`: the smallest offset at
which the anchor matches, if any (`re.search` returns the leftmost
match). -/
def firstMatchPos (a : Anchor) (s : List Char) : Option Nat :=
  (List.range (s.length + 1)).find? (fun p => matchesAt a s p)

def anchorSample : Anchor :=
  ⟨false, [("This").data, ("is").data, ("a").data, ("sample").data]⟩
def anchorUserGuide : Anchor :=
  ⟨false, [("USER").data, ("GUIDE").data]⟩
def anchorTermination : Anchor :=
  ⟨true, [("TERM").data, ("AND").data, ("TERMINATION").data]⟩
def anchorWarranties : Anchor :=
  ⟨true, [("WARRANTIES").data]⟩
def anchorLiability : Anchor :=
  ⟨true, [("LIMITATION").data, ("OF").data, ("LIABILITY").data]⟩
def anchorGeneralProvisions : Anchor :=
  ⟨true, [("GENERAL").data, ("PROVISIONS").data]⟩
def anchorIndemnification : Anchor :=
  ⟨true, [("INDEMNIFICATION").data]⟩
def anchorWitnessWhereof : Anchor :=
  ⟨false, [("IN").data, ("WITNESS").data, ("WHEREOF").data]⟩
def anchorSignature : Anchor :=
  ⟨false, [("SIGNATURE").data]⟩
def anchorAnnexes : Anchor :=
  ⟨false, [("ANNEXES").data]⟩
def anchorGeneralRecommendations : Anchor :=
  ⟨false, [("GENERAL").data, ("RECOMMENDATIONS").data]⟩

/-- The `target_patterns` list of `inject_clause_smartly`, in source
order. -/
def target_patterns : List Anchor :=
  [anchorSample, anchorUserGuide, anchorTermination, anchorWarranties,
   anchorLiability, anchorGeneralProvisions, anchorIndemnification,
   anchorWitnessWhereof, anchorSignature, anchorAnnexes,
   anchorGeneralRecommendations]

/-- The search loop of `inject_clause_smartly`: the first pattern (in
list order) with any match anywhere wins, and its leftmost match start is
the insertion index; `none` models `insertion_index == -1`. -/
def findInsertionIndex (s : List Char) : Option Nat :=
  target_patterns.findSome? (fun a => firstMatchPos a s)

/-- The two-newline separator `"\n\n"`. -/
def sep2 : List Char := [Char.ofNat 10, Char.ofNat 10]

/-- `analyzer.inject_clause_smartly`. -/
def inject_clause_smartly (original_text new_clause_text : List Char) :
    List Char :=
  match findInsertionIndex original_text with
  | some i =>
    pyRstrip (original_text.take i) ++ sep2 ++ new_clause_text ++ sep2 ++
      original_text.drop i
  | none => original_text ++ sep2 ++ new_clause_text

/-- Is the first list a prefix of the second (character-exact)? -/
def strPrefixOf : List Char → List Char → Bool
  | [], _ => true
  | _ :: _, [] => false
  | a :: as, b :: bs => a == b && strPrefixOf as bs

/-- Python's `pat in s` on strings: contiguous-substring containment. -/
def pyIn : List Char → List Char → Bool
  | pat, [] => decide (pat = [])
  | pat, s@(_ :: rest) => strPrefixOf pat s || pyIn pat rest

/-- A regulation record.  `keywords = none` models a record from which
the `keywords` field is missing, so that `reg.get("keywords", [])`
defaults to the empty list.  Only the `keywords` field is consulted by
`match_regulation_to_contract`. -/
structure Regulation where
  rid : List Char
  title : List Char
  jurisdiction : List Char
  date_published : List Char
  summary : List Char
  keywords : Option (List (List Char))
  source_url : List Char

/-- `analyzer.match_regulation_to_contract`: collects the keywords whose
lowercase form is a substring of the lowercase document text (the loop
appends in keyword order, i.e. it filters), and returns
`(len(matches) * 2, matches)`. -/
def match_regulation_to_contract (reg : Regulation) (text : List Char) :
    Nat × List (List Char) :=
  let found := (reg.keywords.getD []).filter
    (fun kw => pyIn (pyLowerStr kw) (pyLowerStr text))
  (found.length * 2, found)

/-- A value of the `clauses` mapping passed to `check_compliance`:
a string, a (string-valued) sub-field mapping, or anything else (which
the code skips).  `str(v)` on a string value is the value itself; deeper
non-string leaves do not occur in the program's data. -/
inductive ClauseVal where
  | vstr (s : List Char)
  | vdict (kvs : List (List Char × List Char))
  | vother
deriving DecidableEq

/-- `" ".join(str(v) for v in text.values())`. -/
def flattenDict (kvs : List (List Char × List Char)) : List Char :=
  joinSpace (kvs.map Prod.snd)

/-- The text `check_compliance` matches against, if the value is usable:
a dict is flattened to a string first, and a non-string value yields
`none` (the clause is skipped). -/
def textOfVal : ClauseVal → Option (List Char)
  | .vstr s => some s
  | .vdict kvs => some (flattenDict kvs)
  | .vother => none

/-- The six rule messages of `check_compliance`, as written in
`main.py`. -/
def msgConsent : List Char :=
  ("GDPR: Missing user consent for data processing.").data
def msgRetention : List Char :=
  ("GDPR: Retention duration not specified.").data
def msgTransfer : List Char :=
  ("GDPR: Cross-border data transfer missing protection clause.").data
def msgNotice : List Char :=
  ("Indian Contract Act: Missing notice period in termination clause.").data
def msgLiability : List Char :=
  ("Indian Contract Act: Unlimited liability may be unenforceable.").data
def msgDispute : List Char :=
  ("Indian Contract Act: Missing dispute resolution mechanism.").data

/-- The rule battery of `check_compliance` applied to one clause text:
every rule is evaluated on the lower-cased text and the messages are
appended in source order. -/
def clauseFlags (text : List Char) : List (List Char) :=
  let tl := pyLowerStr text
  (if pyIn (("personal data").data) tl &&
      !pyIn (("consent").data) tl then [msgConsent] else []) ++
  (if pyIn (("data retention").data) tl &&
      !pyIn (("duration").data) tl then [msgRetention] else []) ++
  (if pyIn (("transfer").data) tl && pyIn (("outside").data) tl &&
      !pyIn (("protection").data) tl then [msgTransfer] else []) ++
  (if pyIn (("terminate").data) tl &&
      !pyIn (("notice").data) tl then [msgNotice] else []) ++
  (if pyIn (("liability").data) tl &&
      pyIn (("unlimited").data) tl then [msgLiability] else []) ++
  (if pyIn (("dispute").data) tl &&
      !pyIn (("arbitration").data) tl &&
      !pyIn (("court").data) tl then [msgDispute] else [])

/-- `main.check_compliance`: iterates the clause mapping in order,
skips unusable values, and records a clause in the output only when its
flag list is non-empty. -/
def check_compliance :
    List (List Char × ClauseVal) → List (List Char × List (List Char))
  | [] => []
  | (n, v) :: rest =>
    match textOfVal v with
    | none => check_compliance rest
    | some t =>
      let fl := clauseFlags t
      if fl = [] then check_compliance rest
      else (n, fl) :: check_compliance rest

/-- `pat` occurs as a contiguous substring of `s` (the meaning of
Python's `pat in s` on strings). -/
def occursIn (pat s : List Char) : Prop :=
  ∃ a b, s = a ++ pat ++ b

/-- A heading string as stored by `split_into_sections`: either the
default `"Preamble"`, or a non-empty stripped line, whose first and last
characters are therefore not whitespace. -/
def goodHeading (h : List Char) : Prop :=
  h = preambleStr ∨
    (h ≠ [] ∧ (∀ c, h.head? = some c → isPySpace c = false) ∧
      (∀ c, h.getLast? = some c → isPySpace c = false))


/-- Does `s` end with `t`?  (Executable form of "the output ends with the
suffix", used to settle suffix claims on concrete inputs.) -/
def listEndsWith (s t : List Char) : Bool :=
  strPrefixOf t.reverse s.reverse

/-! ### Library-style helper lemmas -/

theorem strPrefixOf_iff (p s : List Char) :
    strPrefixOf p s = true ↔ ∃ t, s = p ++ t := by
  induction p generalizing s with
  | nil =>
    simp [strPrefixOf]
  | cons a as ih =>
    cases s with
    | nil =>
      simp [strPrefixOf]
    | cons b bs =>
      simp only [strPrefixOf, Bool.and_eq_true, beq_iff_eq, ih]
      constructor
      · rintro ⟨rfl, t, rfl⟩
        exact ⟨t, rfl⟩
      · rintro ⟨t, ht⟩
        cases ht
        exact ⟨rfl, t, rfl⟩

theorem pyIn_iff (pat s : List Char) :
    pyIn pat s = true ↔ occursIn pat s := by
  induction s with
  | nil =>
    simp only [pyIn, decide_eq_true_eq, occursIn]
    constructor
    · rintro rfl
      exact ⟨[], [], rfl⟩
    · rintro ⟨a, b, hab⟩
      rcases List.append_eq_nil.mp (List.append_eq_nil.mp hab.symm).1 with ⟨h1, h2⟩
      exact h2
  | cons c rest ih =>
    simp only [pyIn, Bool.or_eq_true, strPrefixOf_iff, ih, occursIn]
    constructor
    · rintro (⟨t, ht⟩ | ⟨a, b, hab⟩)
      · exact ⟨[], t, by simpa using ht⟩
      · exact ⟨c :: a, b, by simp [hab]⟩
    · rintro ⟨a, b, hab⟩
      cases a with
      | nil =>
        exact Or.inl ⟨b, by simpa using hab⟩
      | cons a0 as =>
        simp only [List.cons_append, List.cons.injEq] at hab
        exact Or.inr ⟨as, b, hab.2⟩

theorem occursIn_reverse {pat s : List Char} (h : occursIn pat s) :
    occursIn pat.reverse s.reverse := by
  rcases h with ⟨a, b, rfl⟩
  exact ⟨b.reverse, a.reverse, by simp⟩

theorem dropWhile_head_false {p : Char → Bool} {l : List Char} {c : Char}
    {t : List Char} (h : l.dropWhile p = c :: t) : p c = false := by
  induction l with
  | nil => simp [List.dropWhile] at h
  | cons a as ih =>
    rw [List.dropWhile_cons] at h
    by_cases hp : p a = true
    · rw [if_pos hp] at h
      exact ih h
    · rw [if_neg hp] at h
      cases h
      exact Bool.not_eq_true _ ▸ (by simpa using hp)

theorem rstrip_decomp (u : List Char) :
    ∃ ws, u = pyRstrip u ++ ws ∧ ∀ c ∈ ws, isPySpace c = true := by
  refine ⟨(u.reverse.takeWhile isPySpace).reverse, ?_, ?_⟩
  · calc u = u.reverse.reverse := (List.reverse_reverse u).symm
      _ = (List.takeWhile isPySpace u.reverse ++
            List.dropWhile isPySpace u.reverse).reverse := by
          rw [List.takeWhile_append_dropWhile]
      _ = (List.dropWhile isPySpace u.reverse).reverse ++
            (List.takeWhile isPySpace u.reverse).reverse := by
          rw [List.reverse_append]
      _ = pyRstrip u ++ (u.reverse.takeWhile isPySpace).reverse := rfl
  · intro c hc
    exact List.mem_takeWhile_imp (List.mem_reverse.mp hc)

theorem pyRstrip_length_le (u : List Char) :
    (pyRstrip u).length ≤ u.length := by
  rcases rstrip_decomp u with ⟨ws, hu, _⟩
  conv_rhs => rw [hu]
  simp

theorem pyLstrip_length_le (u : List Char) :
    (pyLstrip u).length ≤ u.length := by
  conv_rhs => rw [← List.takeWhile_append_dropWhile (p := isPySpace) (l := u)]
  rw [List.length_append]
  exact Nat.le_add_left _ _

theorem pyStrip_head {x : List Char} {c : Char} {t : List Char}
    (h : pyStrip x = c :: t) : isPySpace c = false := by
  rcases rstrip_decomp (pyLstrip x) with ⟨ws, hu, _⟩
  have hx : pyStrip x = pyRstrip (pyLstrip x) := rfl
  rw [hx] at h
  rw [h] at hu
  exact dropWhile_head_false (p := isPySpace) (l := x) (by simpa using hu)

theorem pyRstrip_getLast {u : List Char} {c : Char}
    (h : (pyRstrip u).getLast? = some c) : isPySpace c = false := by
  have h1 : (u.reverse.dropWhile isPySpace).head? = some c := by
    rw [← List.getLast?_reverse]
    exact h
  cases hd : u.reverse.dropWhile isPySpace with
  | nil => rw [hd] at h1; simp at h1
  | cons d r =>
    rw [hd] at h1
    simp only [List.head?_cons, Option.some.injEq] at h1
    cases h1
    exact dropWhile_head_false hd

theorem pyStrip_getLast {x : List Char} {c : Char}
    (h : (pyStrip x).getLast? = some c) : isPySpace c = false :=
  pyRstrip_getLast h

theorem pyStrip_of_ends (s : List Char)
    (hh : ∀ c, s.head? = some c → isPySpace c = false)
    (hl : ∀ c, s.getLast? = some c → isPySpace c = false) :
    pyStrip s = s := by
  cases hs : s with
  | nil => rfl
  | cons a t =>
    have ha : isPySpace a = false := hh a (by rw [hs]; rfl)
    have h2 : pyLstrip s = s := by
      rw [hs, pyLstrip, List.dropWhile_cons, ha]
      simp
    have h3 : pyRstrip s = s := by
      have hrev : s.reverse.head? = s.getLast? := List.head?_reverse s
      cases hr : s.reverse with
      | nil =>
        have : s = [] := by
          have := congrArg List.reverse hr
          simpa using this
        rw [hs] at this; cases this
      | cons b r =>
        have hb : s.getLast? = some b := by rw [← hrev, hr]; rfl
        have hbs : isPySpace b = false := hl b hb
        rw [pyRstrip, hr, List.dropWhile_cons, hbs]
        simp [← hr]
    rw [← hs, pyStrip, h2, h3]

theorem pyStrip_idem (x : List Char) : pyStrip (pyStrip x) = pyStrip x := by
  cases hv : pyStrip x with
  | nil => rfl
  | cons c t =>
    rw [← hv]
    apply pyStrip_of_ends
    · intro d hd
      rw [hv] at hd
      simp only [List.head?_cons, Option.some.injEq] at hd
      cases hd
      exact pyStrip_head hv
    · intro d hd
      exact pyStrip_getLast hd

theorem occursIn_pyLstrip {h s : List Char} (hne : h ≠ [])
    (hh : ∀ c, h.head? = some c → isPySpace c = false)
    (ho : occursIn h s) : occursIn h (pyLstrip s) := by
  rcases ho with ⟨a, b, rfl⟩
  have hcons : ∃ c t, h = c :: t := by
    cases h with
    | nil => exact absurd rfl hne
    | cons c t => exact ⟨c, t, rfl⟩
  rcases hcons with ⟨c, t, rfl⟩
  have hc : isPySpace c = false := hh c rfl
  have hdh : List.dropWhile isPySpace (c :: t) = c :: t := by
    rw [List.dropWhile_cons, hc]; simp
  rw [pyLstrip, List.append_assoc, List.dropWhile_append]
  by_cases he : (List.dropWhile isPySpace a).isEmpty = true
  · rw [if_pos he]
    rw [List.dropWhile_append]
    have : (List.dropWhile isPySpace (c :: t)).isEmpty = false := by
      rw [hdh]; rfl
    rw [this]
    simp only [Bool.false_eq_true, if_false, hdh]
    exact ⟨[], b, by simp⟩
  · rw [if_neg he]
    exact ⟨List.dropWhile isPySpace a, b, by simp⟩

theorem occursIn_pyRstrip {h s : List Char} (hne : h ≠ [])
    (hl : ∀ c, h.getLast? = some c → isPySpace c = false)
    (ho : occursIn h s) : occursIn h (pyRstrip s) := by
  have hrev : occursIn h.reverse s.reverse := occursIn_reverse ho
  have hr1 : h.reverse ≠ [] := by
    intro hcon
    exact hne (by simpa using congrArg List.reverse hcon)
  have hr2 : ∀ c, h.reverse.head? = some c → isPySpace c = false := by
    intro c hc
    exact hl c (by rw [← List.head?_reverse]; exact hc)
  have := occursIn_pyLstrip hr1 hr2 hrev
  have h2 : occursIn h.reverse.reverse (pyLstrip s.reverse).reverse :=
    occursIn_reverse this
  simpa [pyRstrip, pyLstrip] using h2

theorem occursIn_pyStrip {h s : List Char} (hne : h ≠ [])
    (hh : ∀ c, h.head? = some c → isPySpace c = false)
    (hl : ∀ c, h.getLast? = some c → isPySpace c = false)
    (ho : occursIn h s) : occursIn h (pyStrip s) :=
  occursIn_pyRstrip hne hl (occursIn_pyLstrip hne hh ho)

theorem length_dropWhile_le (p : Char → Bool) (l : List Char) :
    (List.dropWhile p l).length ≤ l.length := by
  conv_rhs => rw [← List.takeWhile_append_dropWhile (p := p) (l := l)]
  rw [List.length_append]
  exact Nat.le_add_left _ _

theorem pyStrip_eq_self_getLast {s : List Char} (h : pyStrip s = s) :
    ∀ c, s.getLast? = some c → isPySpace c = false := by
  have h1 : (pyLstrip s).length ≤ s.length := pyLstrip_length_le s
  have h2 : (pyRstrip (pyLstrip s)).length ≤ (pyLstrip s).length :=
    pyRstrip_length_le _
  have h3 : (pyRstrip (pyLstrip s)).length = s.length := by
    rw [show pyRstrip (pyLstrip s) = pyStrip s from rfl, h]
  have h4 : (pyLstrip s).length = s.length := by omega
  have h5 : pyLstrip s = s := by
    have h6 := List.takeWhile_append_dropWhile (p := isPySpace) (l := s)
    have h7 := congrArg List.length h6
    rw [List.length_append] at h7
    have h8 : (List.takeWhile isPySpace s).length = 0 := by
      have : (List.dropWhile isPySpace s).length = s.length := h4
      omega
    have h9 : List.takeWhile isPySpace s = [] :=
      List.eq_nil_of_length_eq_zero h8
    rw [h9, List.nil_append] at h6
    exact h6
  have h10 : pyRstrip s = s := by
    have hx : pyRstrip (pyLstrip s) = s := h
    rw [h5] at hx
    exact hx
  intro c hc
  exact pyRstrip_getLast (u := s) (by rw [h10]; exact hc)

theorem goodHeading_store {hd : List Char}
    (h : hd = preambleStr ∨ ∃ x, hd = pyStrip x ∧ hd ≠ []) :
    goodHeading (pyStrip hd) := by
  rcases h with rfl | ⟨x, rfl, hne⟩
  · left; decide
  · rw [pyStrip_idem]
    right
    refine ⟨hne, ?_, ?_⟩
    · intro c hc
      cases hcd : pyStrip x with
      | nil => rw [hcd] at hc; simp at hc
      | cons a t =>
        rw [hcd] at hc
        simp only [List.head?_cons, Option.some.injEq] at hc
        cases hc
        exact pyStrip_head hcd
    · intro c hc
      exact pyStrip_getLast hc

theorem splitGo_heads :
    ∀ (lines : List (List Char)) (hd : List Char) (cur : List (List Char))
      (acc : List (List Char × List Char)),
    (hd = preambleStr ∨ ∃ x, hd = pyStrip x ∧ hd ≠ []) →
    (∀ s ∈ acc, goodHeading s.1) →
    ∀ s ∈ splitGo hd cur acc lines, goodHeading s.1 := by
  intro lines
  induction lines with
  | nil =>
    intro hd cur acc hhd hacc s hs
    simp only [splitGo, List.mem_append, List.mem_singleton] at hs
    rcases hs with hs | hs
    · exact hacc s hs
    · rw [hs]; exact goodHeading_store hhd
  | cons ln rest ih =>
    intro hd cur acc hhd hacc s hs
    simp only [splitGo] at hs
    by_cases h1 : pyStrip ln = []
    · rw [if_pos h1] at hs
      exact ih hd _ acc hhd hacc s hs
    · rw [if_neg h1] at hs
      by_cases h2 : heading_re_match (pyStrip ln) = true
      · rw [if_pos h2] at hs
        refine ih (pyStrip ln) [] _ (Or.inr ⟨ln, rfl, h1⟩) ?_ s hs
        intro s2 hs2
        by_cases h3 : cur = [] ∧ acc = []
        · rw [if_pos h3] at hs2
          exact hacc s2 hs2
        · rw [if_neg h3] at hs2
          rcases List.mem_append.mp hs2 with h4 | h4
          · exact hacc s2 h4
          · rw [List.mem_singleton] at h4
            rw [h4]
            exact goodHeading_store hhd
      · rw [if_neg h2] at hs
        exact ih hd _ acc hhd hacc s hs

theorem split_heads (doc : List Char) :
    ∀ s ∈ split_into_sections doc, goodHeading s.1 := by
  intro s hs
  refine splitGo_heads _ preambleStr [] [] (Or.inl rfl) ?_ s hs
  intro s2 hs2
  simp at hs2

theorem outList_mem :
    ∀ (secs : List (List Char × List Char)) (h c : List Char),
    (h, c) ∈ secs → h ≠ [] → h ≠ preambleStr → h ∈ outList secs := by
  intro secs
  induction secs with
  | nil =>
    intro h c hmem
    simp at hmem
  | cons p rest ih =>
    intro h c hmem hne hnp
    rcases p with ⟨ph, pc⟩
    simp only [outList]
    rcases List.mem_cons.mp hmem with heq | hmem2
    · rw [Prod.mk.injEq] at heq
      rcases heq with ⟨rfl, rfl⟩
      refine List.mem_append.mpr (Or.inl ?_)
      refine List.mem_append.mpr (Or.inl ?_)
      refine List.mem_append.mpr (Or.inl ?_)
      rw [if_pos ⟨hne, hnp⟩]
      exact List.mem_singleton.mpr rfl
    · exact List.mem_append.mpr (Or.inr (ih h c hmem2 hne hnp))

theorem occursIn_joinNL :
    ∀ (xs : List (List Char)) (x : List Char), x ∈ xs →
    occursIn x (joinNL xs) := by
  intro xs
  induction xs with
  | nil =>
    intro x hx
    simp at hx
  | cons a rest ih =>
    intro x hx
    cases rest with
    | nil =>
      rw [List.mem_singleton] at hx
      rw [hx]
      exact ⟨[], [], by simp [joinNL]⟩
    | cons b rest2 =>
      rcases List.mem_cons.mp hx with rfl | hx2
      · exact ⟨[], Char.ofNat 10 :: joinNL (b :: rest2), by simp [joinNL]⟩
      · rcases ih x hx2 with ⟨u, v, huv⟩
        refine ⟨a ++ Char.ofNat 10 :: u, v, ?_⟩
        simp only [joinNL, huv]
        simp

theorem findSome?_exists {α β : Type} {f : α → Option β} {b : β} :
    ∀ {l : List α}, l.findSome? f = some b → ∃ a ∈ l, f a = some b := by
  intro l
  induction l with
  | nil =>
    intro h
    simp [List.findSome?] at h
  | cons a as ih =>
    intro h
    rw [List.findSome?_cons] at h
    cases hfa : f a with
    | some v =>
      rw [hfa] at h
      simp only [Option.some.injEq] at h
      exact ⟨a, List.mem_cons_self a as, by rw [hfa, h]⟩
    | none =>
      rw [hfa] at h
      rcases ih h with ⟨x, hx1, hx2⟩
      exact ⟨x, List.mem_cons_of_mem a hx1, hx2⟩

theorem firstMatchPos_le {a : Anchor} {s : List Char} {i : Nat}
    (h : firstMatchPos a s = some i) : i ≤ s.length := by
  have h2 : i ∈ List.range (s.length + 1) := List.mem_of_find?_eq_some h
  have h3 := List.mem_range.mp h2
  omega

theorem findInsertionIndex_le {o : List Char} {i : Nat}
    (h : findInsertionIndex o = some i) : i ≤ o.length := by
  rcases findSome?_exists h with ⟨a, _, ha⟩
  exact firstMatchPos_le ha

theorem isHeadChar_iff (c : Char) :
    isHeadChar c = true ↔
      (c.isUpper = true ∨ c.isDigit = true ∨ c = ' ' ∨ c = '-' ∨ c = '&' ∨
        c = '(' ∨ c = ')' ∨ c = ',') := by
  simp only [isHeadChar, Char.isUpper, Char.isDigit, Bool.or_eq_true,
    Bool.and_eq_true, decide_eq_true_eq, ge_iff_le]
  tauto

theorem findSome?_split {α β : Type} {f : α → Option β} {b : β} :
    ∀ {l : List α}, l.findSome? f = some b →
    ∃ l₁ a l₂, l = l₁ ++ a :: l₂ ∧ f a = some b ∧ ∀ x ∈ l₁, f x = none := by
  intro l
  induction l with
  | nil =>
    intro h
    simp [List.findSome?] at h
  | cons a as ih =>
    intro h
    rw [List.findSome?_cons] at h
    cases hfa : f a with
    | some v =>
      rw [hfa] at h
      simp only [Option.some.injEq] at h
      exact ⟨[], a, as, rfl, by rw [hfa, h], by simp⟩
    | none =>
      rw [hfa] at h
      rcases ih h with ⟨l₁, x, l₂, hl, hx, hall⟩
      refine ⟨a :: l₁, x, l₂, by rw [hl]; rfl, hx, ?_⟩
      intro y hy
      rcases List.mem_cons.mp hy with rfl | hy2
      · exact hfa
      · exact hall y hy2

theorem splitGo_ne_nil :
    ∀ (lines : List (List Char)) (hd : List Char) (cur : List (List Char))
      (acc : List (List Char × List Char)),
    1 ≤ (splitGo hd cur acc lines).length := by
  intro lines
  induction lines with
  | nil =>
    intro hd cur acc
    simp only [splitGo, List.length_append, List.length_cons, List.length_nil]
    omega
  | cons ln rest ih =>
    intro hd cur acc
    simp only [splitGo]
    split_ifs <;> apply ih

theorem listEndsWith_iff (s t : List Char) :
    listEndsWith s t = true ↔ ∃ p, s = p ++ t := by
  rw [listEndsWith, strPrefixOf_iff]
  constructor
  · rintro ⟨r, hr⟩
    refine ⟨r.reverse, ?_⟩
    have h2 := congrArg List.reverse hr
    simpa using h2
  · rintro ⟨p, rfl⟩
    exact ⟨p.reverse, by simp⟩

/-! ### Claims -/

/-- C1 (counterexample): on the document
`"PREAMBLE TEXT\nTERM AND TERMINATION\nThis agreement terminates with 30
days notice."`, `split_into_sections` does NOT return the two claimed
sections `("Preamble", "PREAMBLE TEXT")` and `("TERM AND TERMINATION",
...)`: the first line is itself classified as a heading, and the
empty-buffer guard then drops it entirely. -/
theorem c1_counterexample :
    split_into_sections (("PREAMBLE TEXT\nTERM AND TERMINATION\nThis agreement terminates with 30 days notice.").data) ≠
      [(("Preamble").data, ("PREAMBLE TEXT").data),
       (("TERM AND TERMINATION").data,
        ("This agreement terminates with 30 days notice.").data)] := by
  decide

/-- C1 (amended): on that document `split_into_sections` returns exactly
ONE section, `("TERM AND TERMINATION", "This agreement terminates with 30
days notice.")`: `"PREAMBLE TEXT"` matches the heading pattern, becomes
the current heading, and is then silently replaced by the second heading
because both the line buffer and the section list are still empty. -/
theorem c1_split_sections :
    split_into_sections (("PREAMBLE TEXT\nTERM AND TERMINATION\nThis agreement terminates with 30 days notice.").data) =
      [(("TERM AND TERMINATION").data,
        ("This agreement terminates with 30 days notice.").data)] := by
  decide

/-- C2 (counterexample): for `original = "A\n\nTERM AND TERMINATION\nB"`
and `clause = "NEW CLAUSE"`, the output of `inject_clause_smartly` is NOT
`"A\n\nNEW CLAUSE\n\nTERM AND TERMINATION\nB"`: the anchor regex
`^\s*\d*\.?\s*TERM\s+AND\s+TERMINATION` matches starting at the second
newline (offset 2), so that newline stays in the suffix and the output
carries three newlines before `TERM`. -/
theorem c2_counterexample :
    inject_clause_smartly (("A\n\nTERM AND TERMINATION\nB").data)
        (("NEW CLAUSE").data) ≠
      ("A\n\nNEW CLAUSE\n\nTERM AND TERMINATION\nB").data := by
  decide

/-- C2 (amended): for that input the output is exactly
`"A\n\nNEW CLAUSE\n\n\nTERM AND TERMINATION\nB"` (three consecutive
newlines before the anchor, because the match starts at the newline at
offset 2 and the prefix `"A\n"` is right-trimmed to `"A"`). -/
theorem c2_injection_exact :
    inject_clause_smartly (("A\n\nTERM AND TERMINATION\nB").data)
        (("NEW CLAUSE").data) =
      ("A\n\nNEW CLAUSE\n\n\nTERM AND TERMINATION\nB").data := by
  decide

/-- C8: `split_into_sections` is total (it is a Lean function on all
`List Char`), the empty string yields exactly the single section
`("Preamble", "")`, and every document yields at least one section. -/
theorem c8_total_nonempty :
    split_into_sections [] = [(preambleStr, [])] ∧
    ∀ doc : List Char, 1 ≤ (split_into_sections doc).length := by
  constructor
  · decide
  · intro doc
    exact splitGo_ne_nil _ _ _ _

/-- C9 (counterexample): the clause
`"We collect personal data for marketing purposes."` does NOT produce the
flag text `"missing consent for data processing."` claimed by the spec:
the code's message is `"GDPR: Missing user consent for data
processing."`. -/
theorem c9_counterexample :
    check_compliance
      [(("clause1").data,
        .vstr (("We collect personal data for marketing purposes.").data))] ≠
    [(("clause1").data, [("missing consent for data processing.").data])] := by
  decide

/-- C9 (amended): the clause `"We collect personal data for marketing
purposes."` yields exactly one flag, the code's missing-consent message
`"GDPR: Missing user consent for data processing."`; the clause
`"The provider's liability is unlimited in all cases."` yields exactly
the code's unlimited-liability message; and any clause whose rule battery
produces no violation is omitted from the output mapping. -/
theorem c9_compliance_flags :
    check_compliance
      [(("clause1").data,
        .vstr (("We collect personal data for marketing purposes.").data))] =
      [(("clause1").data, [msgConsent])] ∧
    check_compliance
      [(("clause2").data,
        .vstr ((("The provider").data ++ [Char.ofNat 39] ++
          ("s liability is unlimited in all cases.").data)))] =
      [(("clause2").data, [msgLiability])] ∧
    (∀ (n : List Char) (v : ClauseVal) (rest : List (List Char × ClauseVal)),
      (∀ t, textOfVal v = some t → clauseFlags t = []) →
      check_compliance ((n, v) :: rest) = check_compliance rest) := by
  refine ⟨by decide, by decide, ?_⟩
  intro n v rest hv
  cases v with
  | vstr s =>
    simp [check_compliance, textOfVal, hv s rfl]
  | vdict kvs =>
    simp [check_compliance, textOfVal, hv (flattenDict kvs) rfl]
  | vother =>
    simp [check_compliance, textOfVal]

/-- C9 (witness): a compliant clause (`"All good."`, which triggers no
rule) is omitted from the output, by the omission part of
`c9_compliance_flags` applied at a concrete clause list. -/
theorem c9_witness :
    check_compliance
      [(("ok").data, .vstr (("All good.").data)),
       (("clause1").data,
        .vstr (("We collect personal data for marketing purposes.").data))] =
    check_compliance
      [(("clause1").data,
        .vstr (("We collect personal data for marketing purposes.").data))] := by
  refine c9_compliance_flags.2.2 _ _ _ ?_
  intro t ht
  simp only [textOfVal, Option.some.injEq] at ht
  rw [← ht]
  decide

/-- C3 (counterexample): the claimed bound
`|output| ≥ |input| + |clause| + 4` fails already for `original = "x"`
and `clause = "y"`: no anchor matches, so the fallback appends only the
two-character separator `"\n\n"`, giving `|output| = 4 < 1 + 1 + 4`. -/
theorem c3_counterexample :
    ¬ ((("x").data).length + (("y").data).length + 4 ≤
        (inject_clause_smartly (("x").data) (("y").data)).length) := by
  decide

/-- C3 (amended): `inject_clause_smartly` splits the original text into a
prefix, a run `ws` of trailing whitespace trimmed from that prefix, and a
suffix; the output keeps the prefix and suffix character for character,
and its length is at least `|input| + |clause| + 2 − |ws|` (in the
no-anchor fallback `ws` is empty and only the two separator characters
`"\n\n"` are added). -/
theorem c3_inject_preserves (o c : List Char) :
    ∃ pre ws suf,
      o = pre ++ ws ++ suf ∧ (∀ x ∈ ws, isPySpace x = true) ∧
      (inject_clause_smartly o c = pre ++ sep2 ++ c ++ sep2 ++ suf ∨
       (inject_clause_smartly o c = pre ++ sep2 ++ c ∧ ws = [] ∧ suf = [])) ∧
      o.length + c.length + 2 ≤
        (inject_clause_smartly o c).length + ws.length := by
  cases hfi : findInsertionIndex o with
  | none =>
    refine ⟨o, [], [], by simp, by simp, Or.inr ⟨?_, rfl, rfl⟩, ?_⟩
    · simp [inject_clause_smartly, hfi]
    · simp only [inject_clause_smartly, hfi, sep2, List.length_append,
        List.length_cons, List.length_nil]
      omega
  | some i =>
    rcases rstrip_decomp (o.take i) with ⟨ws, hw, hws⟩
    refine ⟨pyRstrip (o.take i), ws, o.drop i, ?_, hws, Or.inl ?_, ?_⟩
    · rw [← hw, List.take_append_drop]
    · simp [inject_clause_smartly, hfi]
    · have h1 : inject_clause_smartly o c =
          pyRstrip (o.take i) ++ sep2 ++ c ++ sep2 ++ o.drop i := by
        simp [inject_clause_smartly, hfi]
      have h2 := congrArg List.length hw
      rw [List.length_append] at h2
      have h3 : (o.take i).length + (o.drop i).length = o.length := by
        rw [← List.length_append, List.take_append_drop]
      rw [h1]
      simp only [sep2, List.length_append, List.length_cons, List.length_nil]
      omega

/-- C3 (witness): `c3_inject_preserves` evaluated at the concrete inputs
`"x"` and `"y"`. -/
theorem c3_witness :
    ∃ pre ws suf,
      ("x").data = pre ++ ws ++ suf ∧ (∀ x ∈ ws, isPySpace x = true) ∧
      (inject_clause_smartly (("x").data) (("y").data) =
          pre ++ sep2 ++ (("y").data) ++ sep2 ++ suf ∨
       (inject_clause_smartly (("x").data) (("y").data) =
          pre ++ sep2 ++ (("y").data) ∧ ws = [] ∧ suf = [])) ∧
      (("x").data).length + (("y").data).length + 2 ≤
        (inject_clause_smartly (("x").data) (("y").data)).length + ws.length :=
  c3_inject_preserves (("x").data) (("y").data)

/-- C5 (counterexample): in the document
`"USER GUIDE\nThis is a sample\nWARRANTIES"` both the `USER GUIDE` line
(match start 0) and the `WARRANTIES` line (match start 28) are matchable
anchors, yet the chosen insertion offset is 11 — the start of the
higher-priority `This is a sample` match — which lies strictly AFTER the
whole `USER GUIDE` line, so the clause is not inserted before the
`USER GUIDE` line. -/
theorem c5_counterexample :
    firstMatchPos anchorUserGuide
      (("USER GUIDE\nThis is a sample\nWARRANTIES").data) = some 0 ∧
    firstMatchPos anchorWarranties
      (("USER GUIDE\nThis is a sample\nWARRANTIES").data) = some 28 ∧
    findInsertionIndex
      (("USER GUIDE\nThis is a sample\nWARRANTIES").data) = some 11 ∧
    (11 : Nat) ≠ 0 := by
  decide

/-- C5 (amended): the anchor search is strict priority — whenever
`findInsertionIndex` returns an offset, that offset is the leftmost match
of some pattern in `target_patterns` and every earlier pattern in the
list has no match at all; and in particular, for any document in which
the higher-priority `This is a sample` pattern does not match, if the
`USER GUIDE` pattern first matches at offset `i` then the insertion
offset is exactly `i` (so never the `WARRANTIES` match). -/
theorem c5_anchor_priority :
    (∀ (doc : List Char) (i : Nat), findInsertionIndex doc = some i →
      ∃ l₁ a l₂, target_patterns = l₁ ++ a :: l₂ ∧
        firstMatchPos a doc = some i ∧
        ∀ x ∈ l₁, firstMatchPos x doc = none) ∧
    (∀ (doc : List Char) (i : Nat),
      firstMatchPos anchorSample doc = none →
      firstMatchPos anchorUserGuide doc = some i →
      findInsertionIndex doc = some i) := by
  constructor
  · intro doc i h
    exact findSome?_split h
  · intro doc i h1 h2
    simp only [findInsertionIndex, target_patterns, List.findSome?_cons,
      h1, h2]

/-- C5 (witness): `c5_anchor_priority` applied to the concrete document
`"USER GUIDE\nWARRANTIES"`, where the sample pattern has no match and the
`USER GUIDE` pattern first matches at offset 0. -/
theorem c5_witness :
    findInsertionIndex (("USER GUIDE\nWARRANTIES").data) = some 0 :=
  c5_anchor_priority.2 (("USER GUIDE\nWARRANTIES").data) 0
    (by decide) (by decide)

/-- C10 (counterexample): the `WARRANTIES` anchor pattern matches
`"WARRANTIES\nUSER GUIDE"` at offset 0, yet the output of
`inject_clause_smartly` does not end with `original[0:]` (the whole
document): the insertion point chosen is the higher-priority `USER GUIDE`
match at offset 11, so only `original[11:]` survives as the suffix. -/
theorem c10_counterexample :
    anchorWarranties ∈ target_patterns ∧
    matchesAt anchorWarranties (("WARRANTIES\nUSER GUIDE").data) 0 = true ∧
    ¬ ∃ pre, inject_clause_smartly (("WARRANTIES\nUSER GUIDE").data)
        (("C").data) =
      pre ++ ((("WARRANTIES\nUSER GUIDE").data).drop 0) := by
  refine ⟨by decide, by decide, ?_⟩
  rintro ⟨pre, hp⟩
  have h1 := (listEndsWith_iff
    (inject_clause_smartly (("WARRANTIES\nUSER GUIDE").data) (("C").data))
    ((("WARRANTIES\nUSER GUIDE").data).drop 0)).mpr ⟨pre, hp⟩
  have h2 : listEndsWith
      (inject_clause_smartly (("WARRANTIES\nUSER GUIDE").data) (("C").data))
      ((("WARRANTIES\nUSER GUIDE").data).drop 0) = false := by decide
  rw [h2] at h1
  exact absurd h1 (by decide)

/-- C10 (amended): whenever the anchor search SELECTS offset `i`
(`findInsertionIndex` returns `some i`), the output of
`inject_clause_smartly` ends with the exact substring `original[i:]`
unchanged, and the injected clause text occurs strictly before that
suffix. -/
theorem c10_suffix_preserved (o c : List Char) (i : Nat)
    (h : findInsertionIndex o = some i) :
    ∃ pre, inject_clause_smartly o c = pre ++ o.drop i ∧ occursIn c pre := by
  refine ⟨pyRstrip (o.take i) ++ sep2 ++ c ++ sep2, ?_, ?_⟩
  · simp [inject_clause_smartly, h]
  · exact ⟨pyRstrip (o.take i) ++ sep2, sep2, by simp⟩

/-- C10 (witness): `c10_suffix_preserved` at the concrete document
`"A\nWARRANTIES"` (insertion offset 2) and clause `"X"`. -/
theorem c10_witness :
    ∃ pre, inject_clause_smartly (("A\nWARRANTIES").data) (("X").data) =
        pre ++ ((("A\nWARRANTIES").data).drop 2) ∧
      occursIn (("X").data) pre :=
  c10_suffix_preserved (("A\nWARRANTIES").data) (("X").data) 2 (by decide)

/-- C4: for every line already trimmed of leading and trailing
whitespace, the heading classifier (`HEADING_RE.match`) returns true iff
the line consists only of uppercase letters, digits, spaces and the
punctuation characters `- & ( ) ,` and has length at least 3; in
particular the empty line and any line containing a lowercase letter are
never classified as headings. -/
theorem c4_heading_classifier (s : List Char) (hts : pyStrip s = s) :
    (heading_re_match s = true ↔
      (3 ≤ s.length ∧ ∀ c ∈ s, c.isUpper = true ∨ c.isDigit = true ∨
        c = ' ' ∨ c = '-' ∨ c = '&' ∨ c = '(' ∨ c = ')' ∨ c = ',')) ∧
    (s = [] → heading_re_match s = false) ∧
    (∀ c ∈ s, c.isLower = true → heading_re_match s = false) := by
  have hnl : ¬ s.getLast? = some (Char.ofNat 10) := by
    intro hc
    have hfa := pyStrip_eq_self_getLast hts (Char.ofNat 10) hc
    have htr : isPySpace (Char.ofNat 10) = true := by decide
    rw [htr] at hfa
    exact absurd hfa (by decide)
  have hiff : heading_re_match s = true ↔
      (3 ≤ s.length ∧ ∀ c ∈ s, c.isUpper = true ∨ c.isDigit = true ∨
        c = ' ' ∨ c = '-' ∨ c = '&' ∨ c = '(' ∨ c = ')' ∨ c = ',') := by
    constructor
    · intro hm
      simp only [heading_re_match, Bool.or_eq_true, Bool.and_eq_true,
        decide_eq_true_eq, List.all_eq_true] at hm
      rcases hm with ⟨hlen, hall⟩ | ⟨hlast, _⟩
      · exact ⟨hlen, fun c hc => (isHeadChar_iff c).mp (hall c hc)⟩
      · exact absurd hlast hnl
    · rintro ⟨hlen, hall⟩
      simp only [heading_re_match, Bool.or_eq_true, Bool.and_eq_true,
        decide_eq_true_eq, List.all_eq_true]
      exact Or.inl ⟨hlen, fun c hc => (isHeadChar_iff c).mpr (hall c hc)⟩
  refine ⟨hiff, ?_, ?_⟩
  · rintro rfl
    decide
  · intro c hc hcl
    rcases Bool.eq_false_or_eq_true (heading_re_match s) with hb | hb
    · exfalso
      have hspec := (hiff.mp hb).2 c hc
      have hlow : 'a' ≤ c ∧ c ≤ 'z' := by
        simpa [Char.isLower, Bool.and_eq_true, decide_eq_true_eq,
          ge_iff_le] using hcl
      rcases hspec with hu | hdg | h | h | h | h | h | h
      · have h2 : 'A' ≤ c ∧ c ≤ 'Z' := by
          simpa [Char.isUpper, Bool.and_eq_true, decide_eq_true_eq,
            ge_iff_le] using hu
        exact absurd (le_trans hlow.1 h2.2) (by decide)
      · have h2 : '0' ≤ c ∧ c ≤ '9' := by
          simpa [Char.isDigit, Bool.and_eq_true, decide_eq_true_eq,
            ge_iff_le] using hdg
        exact absurd (le_trans hlow.1 h2.2) (by decide)
      · subst h; exact absurd hlow.1 (by decide)
      · subst h; exact absurd hlow.1 (by decide)
      · subst h; exact absurd hlow.1 (by decide)
      · subst h; exact absurd hlow.1 (by decide)
      · subst h; exact absurd hlow.1 (by decide)
      · subst h; exact absurd hlow.1 (by decide)
    · exact hb

/-- C4 (witness): `c4_heading_classifier` at the trimmed all-caps line
`"TERM AND TERMINATION"`, which the classifier accepts. -/
theorem c4_witness :
    pyStrip (("TERM AND TERMINATION").data) = ("TERM AND TERMINATION").data ∧
    heading_re_match (("TERM AND TERMINATION").data) = true :=
  ⟨by decide,
    ((c4_heading_classifier (("TERM AND TERMINATION").data)
      (by decide)).1).mpr (by decide)⟩

/-- C6: `match_regulation_to_contract` returns twice the number of the
regulation's keywords whose lowercase form occurs in the lowercase
document text, together with exactly the matching keywords in the
regulation's own keyword order (a filter of the keyword list); a record
with no `keywords` field contributes `(0, [])` rather than an error.
Every returned keyword really occurs (case-insensitively) in the text. -/
theorem c6_match_regulation (reg : Regulation) (text : List Char) :
    (match_regulation_to_contract reg text).1 =
      2 * ((reg.keywords.getD []).countP
        (fun kw => pyIn (pyLowerStr kw) (pyLowerStr text))) ∧
    (match_regulation_to_contract reg text).2 =
      (reg.keywords.getD []).filter
        (fun kw => pyIn (pyLowerStr kw) (pyLowerStr text)) ∧
    (∀ kw ∈ (match_regulation_to_contract reg text).2,
      occursIn (pyLowerStr kw) (pyLowerStr text)) ∧
    (reg.keywords = none → match_regulation_to_contract reg text = (0, [])) := by
  refine ⟨?_, rfl, ?_, ?_⟩
  · simp [match_regulation_to_contract, List.countP_eq_length_filter,
      Nat.mul_comm]
  · intro kw hkw
    have h2 := (List.mem_filter.mp hkw).2
    exact (pyIn_iff _ _).mp h2
  · intro h
    simp [match_regulation_to_contract, h]

/-- C6 (witness): `c6_match_regulation` at a regulation record whose
`keywords` field is missing: the match result is `(0, [])`. -/
theorem c6_witness :
    match_regulation_to_contract ⟨[], [], [], [], [], none, []⟩
      (("text").data) = (0, []) :=
  (c6_match_regulation ⟨[], [], [], [], [], none, []⟩ (("text").data)).2.2.2 rfl

/-- C7 (counterexample): for the document `"x"` the single section is
`("Preamble", "x")`, but the heading `"Preamble"` does NOT reappear in
the reassembled text (`sections_to_text` suppresses the `"Preamble"`
heading, and the reassembled text is just `"x"`). -/
theorem c7_counterexample :
    (preambleStr, ("x").data) ∈ split_into_sections (("x").data) ∧
    ¬ occursIn preambleStr
        (sections_to_text (split_into_sections (("x").data))) := by
  refine ⟨by decide, ?_⟩
  intro h
  have h1 := (pyIn_iff preambleStr
    (sections_to_text (split_into_sections (("x").data)))).mpr h
  have h2 : pyIn preambleStr
      (sections_to_text (split_into_sections (("x").data))) = false := by
    decide
  rw [h2] at h1
  exact absurd h1 (by decide)

/-- C7 (amended): every heading OTHER THAN `"Preamble"` captured by
`split_into_sections` reappears verbatim as a contiguous substring of
`sections_to_text` applied to that output. -/
theorem c7_heading_fidelity (doc h c : List Char)
    (hmem : (h, c) ∈ split_into_sections doc) (hnp : h ≠ preambleStr) :
    occursIn h (sections_to_text (split_into_sections doc)) := by
  have hg := split_heads doc (h, c) hmem
  rcases hg with heq | ⟨hne, hh, hl⟩
  · exact absurd heq hnp
  · have h1 : h ∈ outList (split_into_sections doc) :=
      outList_mem _ h c hmem hne hnp
    have h2 : occursIn h (joinNL (outList (split_into_sections doc))) :=
      occursIn_joinNL _ h h1
    exact occursIn_pyStrip hne hh hl h2

/-- C7 (witness): `c7_heading_fidelity` at the concrete document
`"INTRO\nbody"`, whose single section heading `"INTRO"` reappears in the
reassembled text. -/
theorem c7_witness :
    occursIn (("INTRO").data)
      (sections_to_text (split_into_sections (("INTRO\nbody").data))) :=
  c7_heading_fidelity (("INTRO\nbody").data) (("INTRO").data)
    (("body").data) (by decide) (by decide)
